import Mathlib

/-!
Shallow embedding of the two CSV import scripts of the repository
(`scripts/import_clockodo_data.py` and `scripts/import_deals_csv.py`).

Modelling conventions:
* Python strings are Lean `String`s; most parsing is done on `List Char`
  (for a 4.14 `String`, `s.data` is its character list).
* Python `float` values are idealised as exact rationals (`PyFloat.finite`),
  plus the special values `inf`/`nan` that `float(str)` can produce;
  binary64 rounding is outside the scope of this development.
* A Python function that can raise is modelled with `Option` (`none` = the
  exception propagates); a function that prints a warning and continues is
  modelled by an extra `Bool` component (`true` = a warning line was printed).
* `datetime.utcnow()` / `datetime.now()` is modelled by an explicit `now`
  parameter threaded through the transformers.
* The MongoDB collection is modelled as a `List` of documents in insertion
  order; `find_one` is `List.find?`; a possible insertion failure of the sink
  is modelled by a caller-supplied predicate `insertOk`.
-/

namespace CsvImport

/-- ASCII whitespace (space and code points 9-13), the model of the
character class stripped by Python `str.strip()` and skipped by
`float(str)`. -/
def isPySpace (c : Char) : Bool :=
  c.toNat = 32 ∨ (9 ≤ c.toNat ∧ c.toNat ≤ 13)

/-- ASCII decimal digit (code points 48-57). -/
def isPyDigit (c : Char) : Bool :=
  48 ≤ c.toNat ∧ c.toNat ≤ 57

/-- Numeric value of a digit character. -/
def digitVal (c : Char) : Nat :=
  c.toNat - 48

/-- Value of a digit string read left to right. -/
def natOfDigits (ds : List Char) : Nat :=
  ds.foldl (fun a c => 10 * a + digitVal c) 0

/-- Model of Python `str.strip()` (both ends, whitespace). -/
def pyTrim (cs : List Char) : List Char :=
  ((cs.dropWhile isPySpace).reverse.dropWhile isPySpace).reverse

/-- Model of Python `str.strip(chars)` for a single character `ch`:
ALL leading and trailing occurrences of `ch` are removed. -/
def pyStripChar (ch : Char) (cs : List Char) : List Char :=
  ((cs.dropWhile (fun c => c = ch)).reverse.dropWhile (fun c => c = ch)).reverse

/-- ASCII lower-casing (code points 65-90 shift by 32), used by `float(str)`
for `inf`/`nan` recognition. -/
def asciiLower (c : Char) : Char :=
  if 65 ≤ c.toNat ∧ c.toNat ≤ 90 then Char.ofNat (c.toNat + 32) else c

/-- A value of Python type `float`, idealised: finite values are exact
rationals, and the special values are kept abstract. -/
inductive PyFloat where
  | finite (q : ℚ)
  | inf (neg : Bool)
  | nan
  deriving DecidableEq

/-- Optional leading sign of a numeric literal; returns
(is-negative, remainder). -/
def splitSign : List Char → Bool × List Char
  | [] => (false, [])
  | c :: r =>
    if c = '+' then (false, r)
    else if c = '-' then (true, r)
    else (false, c :: r)

/-- PEP 515 underscore rule enforced by `float(str)`: scanning with the
previous character at hand, every `_` must sit between two digits. -/
def underscoresOkAux (prev : Char) : List Char → Bool
  | [] => true
  | c :: rest =>
    if c = '_' then
      match rest with
      | [] => false
      | c2 :: rest2 => isPyDigit prev ∧ isPyDigit c2 ∧ underscoresOkAux c2 rest2
    else underscoresOkAux c rest

/-- Underscore validity for the whole (sign-stripped) literal body. -/
def underscoresOk : List Char → Bool
  | [] => true
  | c :: rest => if c = '_' then false else underscoresOkAux c rest

/-- The syntactic pieces of a finite decimal `float` literal: sign, integer
digits, fraction digits, exponent sign and exponent digits (an absent
exponent is recorded as no digits, i.e. scale 10^0). -/
structure DecLit where
  neg : Bool
  ip : List Char
  fp : List Char
  eneg : Bool
  eds : List Char
  deriving DecidableEq

/-- Syntactic outcome of `float(str)` on well-formed input. -/
inductive PyLit where
  | num (d : DecLit)
  | inf (neg : Bool)
  | nan
  deriving DecidableEq

/-- Optional exponent suffix of a `float` literal: empty input means no
scaling, `e`/`E` plus signed digits gives the scale, anything else errors. -/
def parseExpLit : List Char → Option (Bool × List Char)
  | [] => some (false, [])
  | c :: rest =>
    if c = 'e' ∨ c = 'E' then
      let sr := splitSign rest
      let eds := sr.2.takeWhile isPyDigit
      if eds = [] ∨ sr.2.dropWhile isPyDigit ≠ [] then none
      else some (sr.1, eds)
    else none

/-- Unsigned decimal literal (underscores already removed):
`D+ [. D*] | . D+`, optionally followed by an exponent. -/
def parseDecLit (neg : Bool) (cs : List Char) : Option DecLit :=
  let ip := cs.takeWhile isPyDigit
  let rest := cs.dropWhile isPyDigit
  match rest with
  | '.' :: rest2 =>
    let fp := rest2.takeWhile isPyDigit
    let rest3 := rest2.dropWhile isPyDigit
    if ip = [] ∧ fp = [] then none
    else (parseExpLit rest3).map fun e => ⟨neg, ip, fp, e.1, e.2⟩
  | _ =>
    if ip = [] then none
    else (parseExpLit rest).map fun e => ⟨neg, ip, [], e.1, e.2⟩

/-- Case-insensitive comparison against a fixed lower-case word. -/
def lowerEq (cs : List Char) (w : List Char) : Bool :=
  cs.map asciiLower = w

/-- Syntactic model of CPython `float(str)`: strip whitespace, take an
optional sign, recognise `inf`/`infinity`/`nan` case-insensitively, otherwise
validate PEP 515 underscores and parse a decimal literal.  `none` models the
`ValueError` raised on malformed input. -/
def pyLitChars (cs0 : List Char) : Option PyLit :=
  let cs := pyTrim cs0
  let sb := splitSign cs
  if lowerEq sb.2 ['i', 'n', 'f'] ∨ lowerEq sb.2 ['i', 'n', 'f', 'i', 'n', 'i', 't', 'y'] then
    some (.inf sb.1)
  else if lowerEq sb.2 ['n', 'a', 'n'] then
    some .nan
  else if underscoresOk sb.2 then
    (parseDecLit sb.1 (sb.2.filter (fun c => c ≠ '_'))).map .num
  else none

/-- Rational value of a finite decimal literal. -/
def DecLit.value (d : DecLit) : ℚ :=
  let m : ℚ := (natOfDigits d.ip : ℚ) + (natOfDigits d.fp : ℚ) / 10 ^ d.fp.length
  let s : ℚ := if d.eneg then m / 10 ^ natOfDigits d.eds else m * 10 ^ natOfDigits d.eds
  if d.neg then -s else s

/-- Value of a parsed `float` literal. -/
def PyLit.value : PyLit → PyFloat
  | .num d => .finite d.value
  | .inf n => .inf n
  | .nan => .nan

/-- Model of CPython `float(str)`: parse, then evaluate. -/
def pyFloatChars (cs : List Char) : Option PyFloat :=
  (pyLitChars cs).map PyLit.value

/-- `parse_german_number` (import_clockodo_data.py, lines 18-23): empty input
yields `0.0`; otherwise every comma is replaced by a dot (Python
`value.replace(',', '.')` with a one-character pattern is a character map)
and the result goes through `float`.  `none` models the uncaught
`ValueError`. -/
def parse_german_number (value : String) : Option PyFloat :=
  if value = "" then some (.finite 0)
  else pyFloatChars (value.data.map fun c => if c = ',' then '.' else c)

/-- `parse_number` (import_deals_csv.py, lines 29-37): empty or
whitespace-only input yields `None` silently; a `float` failure prints a
warning and yields `None`; otherwise the parsed value is returned.
The `Bool` records whether the warning line was printed. -/
def parse_number (value_str : String) : Option PyFloat × Bool :=
  if value_str = "" ∨ pyTrim value_str.data = [] then (none, false)
  else
    match pyFloatChars value_str.data with
    | some v => (some v, false)
    | none => (none, true)

/-- A `datetime.datetime` value (the scripts never use fractional seconds
or time zones). -/
structure PyDateTime where
  year : Nat
  month : Nat
  day : Nat
  hour : Nat
  minute : Nat
  second : Nat
  deriving DecidableEq

/-- Ordered choice: the first alternative whose continuation succeeds, the
backtracking discipline of CPython's `_strptime` regexes. -/
def pickFirst {α β : Type} : List α → (α → Option β) → Option β
  | [], _ => none
  | a :: l, f =>
    match f a with
    | some b => some b
    | none => pickFirst l f

/-- Candidates for `%m`, CPython pattern `1[0-2]|0[1-9]|[1-9]`, in
alternation order; each candidate is (value, remaining input). -/
def monthCands : List Char → List (Nat × List Char)
  | [] => []
  | c :: rest =>
    (match c, rest with
     | '1', c2 :: rest2 =>
       if c2 = '0' ∨ c2 = '1' ∨ c2 = '2' then [(10 + digitVal c2, rest2)] else []
     | '0', c2 :: rest2 =>
       if isPyDigit c2 ∧ c2 ≠ '0' then [(digitVal c2, rest2)] else []
     | _, _ => []) ++
    (if isPyDigit c ∧ c ≠ '0' then [(digitVal c, rest)] else [])

/-- Candidates for `%d`, CPython pattern `3[01]|[12]\d|0[1-9]|[1-9]`. -/
def dayCands : List Char → List (Nat × List Char)
  | [] => []
  | c :: rest =>
    (match c, rest with
     | '3', c2 :: rest2 =>
       if c2 = '0' ∨ c2 = '1' then [(30 + digitVal c2, rest2)] else []
     | _, _ => []) ++
    (match c, rest with
     | c, c2 :: rest2 =>
       if (c = '1' ∨ c = '2') ∧ isPyDigit c2 then
         [(10 * digitVal c + digitVal c2, rest2)]
       else []
     | _, _ => []) ++
    (match c, rest with
     | '0', c2 :: rest2 =>
       if isPyDigit c2 ∧ c2 ≠ '0' then [(digitVal c2, rest2)] else []
     | _, _ => []) ++
    (if isPyDigit c ∧ c ≠ '0' then [(digitVal c, rest)] else [])

/-- Candidates for `%H`, CPython pattern `2[0-3]|[0-1]\d|\d`. -/
def hourCands : List Char → List (Nat × List Char)
  | [] => []
  | c :: rest =>
    (match c, rest with
     | '2', c2 :: rest2 =>
       if c2 = '0' ∨ c2 = '1' ∨ c2 = '2' ∨ c2 = '3' then [(20 + digitVal c2, rest2)] else []
     | _, _ => []) ++
    (match c, rest with
     | c, c2 :: rest2 =>
       if (c = '0' ∨ c = '1') ∧ isPyDigit c2 then
         [(10 * digitVal c + digitVal c2, rest2)]
       else []
     | _, _ => []) ++
    (if isPyDigit c then [(digitVal c, rest)] else [])

/-- Candidates for `%M`, CPython pattern `[0-5]\d|\d`. -/
def minuteCands : List Char → List (Nat × List Char)
  | [] => []
  | c :: rest =>
    (match c, rest with
     | c, c2 :: rest2 =>
       if isPyDigit c ∧ digitVal c ≤ 5 ∧ isPyDigit c2 then
         [(10 * digitVal c + digitVal c2, rest2)]
       else []
     | _, _ => []) ++
    (if isPyDigit c then [(digitVal c, rest)] else [])

/-- Candidates for `%S`, CPython pattern `6[0-1]|[0-5]\d|\d` (the pattern
admits the leap seconds 60 and 61; `datetime`'s constructor rejects them). -/
def secondCands : List Char → List (Nat × List Char)
  | [] => []
  | c :: rest =>
    (match c, rest with
     | '6', c2 :: rest2 =>
       if c2 = '0' ∨ c2 = '1' then [(60 + digitVal c2, rest2)] else []
     | _, _ => []) ++
    (match c, rest with
     | c, c2 :: rest2 =>
       if isPyDigit c ∧ digitVal c ≤ 5 ∧ isPyDigit c2 then
         [(10 * digitVal c + digitVal c2, rest2)]
       else []
     | _, _ => []) ++
    (if isPyDigit c then [(digitVal c, rest)] else [])

/-- Gregorian leap year, as in `datetime`. -/
def leapYear (y : Nat) : Bool :=
  y % 4 = 0 ∧ (y % 100 ≠ 0 ∨ y % 400 = 0)

/-- Days of a month, as checked by the `datetime` constructor. -/
def daysInMonth (y m : Nat) : Nat :=
  if m = 2 then (if leapYear y then 29 else 28)
  else if m = 4 ∨ m = 6 ∨ m = 9 ∨ m = 11 then 30
  else 31

/-- `datetime.strptime(s, '%Y-%m')`: exactly four digits of year, a dash and
a month per `monthCands`, with nothing left over; then the `datetime`
constructor requires `year ≥ 1` (four digits already bound it by 9999) and
defaults the day to 1.  `none` models the `ValueError`. -/
def strptimeYM (cs : List Char) : Option PyDateTime :=
  match cs with
  | c1 :: c2 :: c3 :: c4 :: '-' :: rest =>
    if isPyDigit c1 ∧ isPyDigit c2 ∧ isPyDigit c3 ∧ isPyDigit c4 then
      match (monthCands rest).find? (fun mc => mc.2.isEmpty) with
      | some mc =>
        let y := natOfDigits [c1, c2, c3, c4]
        if 1 ≤ y then some ⟨y, mc.1, 1, 0, 0, 0⟩ else none
      | none => none
    else none
  | _ => none

/-- The regex match for `%m-%d` followed by end of input: month candidates
in alternation order, each continued by a literal dash and a day candidate
that consumes the rest. -/
def matchMD (rest : List Char) : Option (Nat × Nat) :=
  pickFirst (monthCands rest) fun mc =>
    match mc.2 with
    | '-' :: r2 =>
      pickFirst (dayCands r2) fun dc =>
        if dc.2.isEmpty then some (mc.1, dc.1) else none
    | _ => none

/-- `datetime.strptime(s, '%Y-%m-%d')`: the regex match (four year digits,
dash, `matchMD`), then the constructor checks `year ≥ 1` and the day against
the month length.  The pattern itself guarantees `month ∈ 1..12` and
`day ∈ 1..31`. -/
def strptimeYMD (cs : List Char) : Option PyDateTime :=
  match cs with
  | c1 :: c2 :: c3 :: c4 :: '-' :: rest =>
    if isPyDigit c1 ∧ isPyDigit c2 ∧ isPyDigit c3 ∧ isPyDigit c4 then
      match matchMD rest with
      | some md =>
        let y := natOfDigits [c1, c2, c3, c4]
        if 1 ≤ y ∧ md.2 ≤ daysInMonth y md.1 then some ⟨y, md.1, md.2, 0, 0, 0⟩ else none
      | none => none
    else none
  | _ => none

/-- The regex match for `%H:%M:%S` consuming the whole remaining input. -/
def matchHMS (cs : List Char) : Option (Nat × Nat × Nat) :=
  pickFirst (hourCands cs) fun hc =>
    match hc.2 with
    | ':' :: r2 =>
      pickFirst (minuteCands r2) fun mc =>
        match mc.2 with
        | ':' :: r3 =>
          pickFirst (secondCands r3) fun sc =>
            if sc.2.isEmpty then some (hc.1, mc.1, sc.1) else none
        | _ => none
    | _ => none

/-- The regex match for `%m-%d %H:%M:%S`: as `matchMD`, but after the day at
least one whitespace character (the format's blank becomes `\s+`; greedy
consumption is equivalent here because no time field starts with
whitespace), then `matchHMS`. -/
def matchMDHMS (rest : List Char) : Option (Nat × Nat × Nat × Nat × Nat) :=
  pickFirst (monthCands rest) fun mc =>
    match mc.2 with
    | '-' :: r2 =>
      pickFirst (dayCands r2) fun dc =>
        if (dc.2.takeWhile isPySpace).isEmpty then none
        else
          (matchHMS (dc.2.dropWhile isPySpace)).map fun hms =>
            (mc.1, dc.1, hms.1, hms.2.1, hms.2.2)
    | _ => none

/-- `datetime.strptime(s, '%Y-%m-%d %H:%M:%S')`: the regex match, then the
constructor checks `year ≥ 1`, the day against the month length, and
`second ≤ 59` (the pattern alone already bounds hour by 23 and minute by 59,
but admits leap seconds). -/
def strptimeFull (cs : List Char) : Option PyDateTime :=
  match cs with
  | c1 :: c2 :: c3 :: c4 :: '-' :: rest =>
    if isPyDigit c1 ∧ isPyDigit c2 ∧ isPyDigit c3 ∧ isPyDigit c4 then
      match matchMDHMS rest with
      | some r =>
        let y := natOfDigits [c1, c2, c3, c4]
        if 1 ≤ y ∧ r.2.1 ≤ daysInMonth y r.1 ∧ r.2.2.2.2 ≤ 59 then
          some ⟨y, r.1, r.2.1, r.2.2.1, r.2.2.2.1, r.2.2.2.2⟩
        else none
      | none => none
    else none
  | _ => none

/-- `parse_month` (import_clockodo_data.py, lines 25-30): `strptime` with
`'%Y-%m'`, any `ValueError` is swallowed into `None`.  No warning is ever
printed by this function. -/
def parse_month (month_str : String) : Option PyDateTime :=
  strptimeYM month_str.data

/-- `parse_date` (import_deals_csv.py, lines 14-27): empty or
whitespace-only input yields `None` silently; input containing a blank is
parsed with `'%Y-%m-%d %H:%M:%S'`, other input with `'%Y-%m-%d'`; a
`ValueError` prints a warning and yields `None`.  The `Bool` records whether
the warning line was printed. -/
def parse_date (date_str : String) : Option PyDateTime × Bool :=
  if date_str = "" ∨ pyTrim date_str.data = [] then (none, false)
  else if ' ' ∈ date_str.data then
    match strptimeFull date_str.data with
    | some dt => (some dt, false)
    | none => (none, true)
  else
    match strptimeYMD date_str.data with
    | some dt => (some dt, false)
    | none => (none, true)

/-- A raw row of the timesheet (Clockodo) CSV: the string value of each
column the transformer reads, one field per header named in the script. -/
structure ClockodoRow where
  kunde : String
  projekt : String
  monat : String
  leistung : String
  mitarbeiter : String
  stunden : String
  umsatz : String
  deriving DecidableEq

/-- Python `s.strip('"')` on a string: every leading and trailing `"` goes. -/
def pyStripQ (s : String) : String :=
  ⟨pyStripChar '"' s.data⟩

/-- The normalized timesheet document (import_clockodo_data.py, lines
53-63). -/
structure ClockodoDoc where
  kunde : String
  projekt : String
  monat : String
  monat_date : Option PyDateTime
  leistung : String
  mitarbeiter : String
  stunden : PyFloat
  umsatz_eur : PyFloat
  imported_at : PyDateTime
  deriving DecidableEq

/-- The document literal built for one timesheet row (lines 53-63): four
string fields are `strip('"')`-ed, `monat` copied verbatim and also month
parsed, the two numeric fields go through `parse_german_number` (the revenue
string is quote-stripped first).  `none` models the `ValueError` that
`parse_german_number` lets escape. -/
def clockodoDocument (row : ClockodoRow) (now : PyDateTime) : Option ClockodoDoc :=
  match parse_german_number row.stunden, parse_german_number (pyStripQ row.umsatz) with
  | some st, some um =>
    some { kunde := pyStripQ row.kunde, projekt := pyStripQ row.projekt,
           monat := row.monat, monat_date := parse_month row.monat,
           leistung := pyStripQ row.leistung, mitarbeiter := pyStripQ row.mitarbeiter,
           stunden := st, umsatz_eur := um, imported_at := now }
  | _, _ => none

/-- Outcome of one timesheet import run: the collection contents, the
`imported_count`, and whether the run succeeded (`False` = the `except`
branch printed an import error and `main` exits non-zero). -/
structure ClockodoResult where
  coll : List ClockodoDoc
  imported : Nat
  success : Bool
  deriving DecidableEq

/-- The row loop of `import_clockodo_data` (lines 47-77): each row is
transformed and inserted with no existence check; the whole loop sits in one
`try`, so a transformation error or a failed insert (modelled by `insertOk`
returning `false`) aborts the run, keeping the documents already inserted.
-/
def import_clockodo_data (insertOk : ClockodoDoc → List ClockodoDoc → Bool)
    (now : PyDateTime) :
    List ClockodoRow → List ClockodoDoc → Nat → ClockodoResult
  | [], coll, n => ⟨coll, n, true⟩
  | row :: rows, coll, n =>
    match clockodoDocument row now with
    | none => ⟨coll, n, false⟩
    | some doc =>
      if insertOk doc coll then
        import_clockodo_data insertOk now rows (coll ++ [doc]) (n + 1)
      else ⟨coll, n, false⟩

/-- A raw row of the deals CSV: the string value of each column the
transformer reads; field names abbreviate the German headers
(`Deal - Titel`, `Deal - Organisation`, `Deal - Wert`, ...). -/
structure DealRow where
  titel : String
  organisation : String
  wert : String
  status : String
  verlustgrund : String
  besitzer : String
  erstellt : String
  verloren_am : String
  phase : String
  zu_erledigende : String
  kontaktperson : String
  abgeschlossen_am : String
  erledigte : String
  anzahl_email : String
  id : String
  label : String
  letzte_aktivitaet : String
  letzte_email_erhalten : String
  letzte_email_gesendet : String
  letzte_phasenaenderung : String
  naechste_aktivitaet : String
  wahrscheinlichkeit : String
  gesamtzahl : String
  aktualisierung : String
  sichtbar_fuer : String
  gewichteter_wert : String
  pipeline : String
  gewonnen_am : String
  deriving DecidableEq

/-- The normalized deal document (import_deals_csv.py, lines 39-71). -/
structure DealDoc where
  title : String
  organization : String
  value : Option PyFloat
  status : String
  loss_reason : String
  owner : String
  created_date : Option PyDateTime
  lost_date : Option PyDateTime
  phase : String
  pending_activities : Option PyFloat
  contact_person : String
  closed_date : Option PyDateTime
  completed_activities : Option PyFloat
  email_count : Option PyFloat
  deal_id : String
  label : String
  last_activity_date : Option PyDateTime
  last_email_received : Option PyDateTime
  last_email_sent : Option PyDateTime
  last_phase_change : Option PyDateTime
  next_activity_date : Option PyDateTime
  probability : Option PyFloat
  total_activities : Option PyFloat
  last_update : Option PyDateTime
  visibility : String
  weighted_value : Option PyFloat
  pipeline : String
  won_date : Option PyDateTime
  imported_at : PyDateTime
  deriving DecidableEq

/-- `transform_deal_row` (lines 39-71): string fields are copied verbatim
(no quote stripping), numeric fields go through `parse_number`, date fields
through `parse_date` (only the parsed values end up in the document; the
warnings are printed, not stored).  The function is total: both helpers
swallow their `ValueError`s. -/
def transform_deal_row (row : DealRow) (now : PyDateTime) : DealDoc :=
  { title := row.titel
    organization := row.organisation
    value := (parse_number row.wert).1
    status := row.status
    loss_reason := row.verlustgrund
    owner := row.besitzer
    created_date := (parse_date row.erstellt).1
    lost_date := (parse_date row.verloren_am).1
    phase := row.phase
    pending_activities := (parse_number row.zu_erledigende).1
    contact_person := row.kontaktperson
    closed_date := (parse_date row.abgeschlossen_am).1
    completed_activities := (parse_number row.erledigte).1
    email_count := (parse_number row.anzahl_email).1
    deal_id := row.id
    label := row.label
    last_activity_date := (parse_date row.letzte_aktivitaet).1
    last_email_received := (parse_date row.letzte_email_erhalten).1
    last_email_sent := (parse_date row.letzte_email_gesendet).1
    last_phase_change := (parse_date row.letzte_phasenaenderung).1
    next_activity_date := (parse_date row.naechste_aktivitaet).1
    probability := (parse_number row.wahrscheinlichkeit).1
    total_activities := (parse_number row.gesamtzahl).1
    last_update := (parse_date row.aktualisierung).1
    visibility := row.sichtbar_fuer
    weighted_value := (parse_number row.gewichteter_wert).1
    pipeline := row.pipeline
    won_date := (parse_date row.gewonnen_am).1
    imported_at := now }

/-- Running state of the deal import loop: collection contents plus the
`imported_count` and `skipped_count` counters; `errors` counts rows that hit
the per-row `except` branch (logged, then the loop continues). -/
structure DealState where
  coll : List DealDoc
  imported : Nat
  skipped : Nat
  errors : Nat
  deriving DecidableEq

/-- `find_one({'deal_id': i})` on the modelled collection: first inserted
match. -/
def find_one_by_deal_id (coll : List DealDoc) (i : String) : Option DealDoc :=
  coll.find? (fun d => d.deal_id = i)

/-- One iteration of the deal import loop (lines 123-145): transform; if the
deal id is truthy (non-empty) and already present, count the row as skipped;
otherwise insert (a failing insert, `insertOk = false`, is caught by the
per-row `except` and only counted). -/
def dealStep (insertOk : DealDoc → List DealDoc → Bool) (now : PyDateTime)
    (st : DealState) (row : DealRow) : DealState :=
  let deal_doc := transform_deal_row row now
  if deal_doc.deal_id ≠ "" ∧ (find_one_by_deal_id st.coll deal_doc.deal_id).isSome then
    { st with skipped := st.skipped + 1 }
  else if insertOk deal_doc st.coll then
    { st with coll := st.coll ++ [deal_doc], imported := st.imported + 1 }
  else
    { st with errors := st.errors + 1 }

/-- The deal import loop: every row is processed in order; no outcome of a
row stops the loop. -/
def dealImportLoop (insertOk : DealDoc → List DealDoc → Bool) (now : PyDateTime)
    (rows : List DealRow) (st : DealState) : DealState :=
  rows.foldl (dealStep insertOk now) st

/-- A secondary index as registered by `create_index`. -/
structure IndexSpec where
  key : String
  unique : Bool
  sparse : Bool
  deriving DecidableEq

/-- The indexes registered after the deal load (lines 152-158), in order. -/
def deals_indexes : List IndexSpec :=
  [⟨"deal_id", true, true⟩, ⟨"status", false, false⟩, ⟨"owner", false, false⟩,
   ⟨"organization", false, false⟩, ⟨"created_date", false, false⟩]

/-- A deal row whose fields are all empty, used as a concrete input. -/
def blankDealRow : DealRow :=
  ⟨"", "", "", "", "", "", "", "", "", "", "", "", "", "",
   "", "", "", "", "", "", "", "", "", "", "", "", "", ""⟩

/-- A fixed processing timestamp used for concrete inputs. -/
def epoch : PyDateTime :=
  ⟨1970, 1, 1, 0, 0, 0⟩

/-- Number of documents in a collection carrying a given deal identifier. -/
def countId (coll : List DealDoc) (i : String) : Nat :=
  (coll.filter (fun d => d.deal_id = i)).length

/-- Mathematical value of a list of decimal digit values, most significant
first (spec-side vocabulary for stating parser correctness). -/
def valOfDigits (ds : List Nat) : Nat :=
  ds.foldl (fun a d => 10 * a + d) 0

/-- Mathematical value of the decimal numeral `ds , es` (integer digits,
comma, fraction digits) — the number the spec means by "the value obtained
by simple comma-for-dot substitution". -/
def decimalValue (ds es : List Nat) : ℚ :=
  (valOfDigits ds : ℚ) + (valOfDigits es : ℚ) / 10 ^ es.length

/-- Modelled from the claim wording of C1: stripping exactly ONE layer of
surrounding quote characters (used only to compare the claim against the
code's greedy `strip('"')`). -/
def stripOneLayerQ (s : String) : String :=
  match s.data with
  | '"' :: rest => if rest.getLast? = some '"' then ⟨rest.dropLast⟩ else s
  | _ => s

/-- Modelled from the claim wording of C6: a string of the exact shape
`YYYY-MM` (four digits, dash, two digits). -/
def isShapeYYYYMM (s : String) : Bool :=
  match s.data with
  | [c1, c2, c3, c4, '-', c5, c6] =>
    isPyDigit c1 ∧ isPyDigit c2 ∧ isPyDigit c3 ∧ isPyDigit c4 ∧
    isPyDigit c5 ∧ isPyDigit c6
  | _ => false

end CsvImport

namespace CsvImport

/-! ### Helper lemmas -/

@[simp] theorem natOfDigits_nil : natOfDigits [] = 0 := rfl

theorem char_ne_of_toNat_ne {c d : Char} (h : c.toNat ≠ d.toNat) : c ≠ d :=
  fun e => h (e ▸ rfl)

theorem toNat_bounds_of_isPyDigit {c : Char} (h : isPyDigit c = true) :
    48 ≤ c.toNat ∧ c.toNat ≤ 57 := by
  simpa [isPyDigit] using h

theorem isPyDigit_digitChar {d : Nat} (h : d ≤ 9) :
    isPyDigit (Nat.digitChar d) = true := by
  interval_cases d <;> decide

theorem digitVal_digitChar {d : Nat} (h : d ≤ 9) :
    digitVal (Nat.digitChar d) = d := by
  interval_cases d <;> decide

theorem isPySpace_eq_false_of_digit {c : Char} (h : isPyDigit c = true) :
    isPySpace c = false := by
  obtain ⟨h1, h2⟩ := toNat_bounds_of_isPyDigit h
  simp [isPySpace]
  omega

theorem digit_ne {c d : Char} (h : isPyDigit c = true)
    (hd : d.toNat < 48 ∨ 57 < d.toNat) : c ≠ d := by
  obtain ⟨h1, h2⟩ := toNat_bounds_of_isPyDigit h
  exact char_ne_of_toNat_ne (by omega)

theorem asciiLower_of_isPyDigit {c : Char} (h : isPyDigit c = true) :
    asciiLower c = c := by
  obtain ⟨h1, h2⟩ := toNat_bounds_of_isPyDigit h
  rw [asciiLower, if_neg]
  omega

theorem dropWhile_all_false {p : Char → Bool} {l : List Char}
    (h : ∀ c ∈ l, p c = false) : l.dropWhile p = l := by
  cases l with
  | nil => rfl
  | cons c r => rw [List.dropWhile_cons, if_neg (by simp [h c (by simp)])]

theorem pyTrim_eq_self {l : List Char} (h : ∀ c ∈ l, isPySpace c = false) :
    pyTrim l = l := by
  unfold pyTrim
  rw [dropWhile_all_false h,
    dropWhile_all_false (fun c hc => h c (List.mem_reverse.mp hc))]
  exact l.reverse_reverse

theorem takeWhile_all {p : Char → Bool} {l : List Char} (h : ∀ x ∈ l, p x = true) :
    l.takeWhile p = l ∧ l.dropWhile p = [] := by
  induction l with
  | nil => exact ⟨rfl, rfl⟩
  | cons c r ih =>
    have hc : p c = true := h c (by simp)
    have := ih (fun x hx => h x (by simp [hx]))
    rw [List.takeWhile_cons, List.dropWhile_cons, if_pos hc, if_pos hc]
    simp [this.1, this.2]

theorem takeWhile_append_not {p : Char → Bool} {l1 : List Char} {c : Char}
    (l2 : List Char) (h1 : ∀ x ∈ l1, p x = true) (h2 : p c = false) :
    (l1 ++ c :: l2).takeWhile p = l1 ∧ (l1 ++ c :: l2).dropWhile p = c :: l2 := by
  induction l1 with
  | nil => simp [List.takeWhile_cons, List.dropWhile_cons, h2]
  | cons a r ih =>
    have ha : p a = true := h1 a (by simp)
    have := ih (fun x hx => h1 x (by simp [hx]))
    simp only [List.cons_append, List.takeWhile_cons, List.dropWhile_cons, if_pos ha, ha]
    simp [this.1, this.2]

theorem underscoresOkAux_of {l : List Char} (h : ∀ c ∈ l, ¬(c = '_')) :
    ∀ prev, underscoresOkAux prev l = true := by
  induction l with
  | nil => intro prev; rfl
  | cons c r ih =>
    intro prev
    have step : underscoresOkAux prev (c :: r) = underscoresOkAux c r := by
      rw [underscoresOkAux.eq_def]
      exact if_neg (h c (by simp))
    rw [step]
    exact ih (fun x hx => h x (by simp [hx])) c

theorem underscoresOk_of {l : List Char} (h : ∀ c ∈ l, ¬(c = '_')) :
    underscoresOk l = true := by
  cases l with
  | nil => rfl
  | cons c r =>
    rw [underscoresOk, if_neg (h c (by simp))]
    exact underscoresOkAux_of (fun x hx => h x (by simp [hx])) c

theorem filter_of_no_underscore {l : List Char} (h : ∀ c ∈ l, ¬(c = '_')) :
    l.filter (fun c => c ≠ '_') = l := by
  induction l with
  | nil => rfl
  | cons c r ih =>
    rw [List.filter_cons, if_pos (by simpa using h c (by simp))]
    rw [ih (fun x hx => h x (by simp [hx]))]

theorem splitSign_eq_self {l : List Char}
    (h : ∀ c, l.head? = some c → (¬(c = '+') ∧ ¬(c = '-'))) :
    splitSign l = (false, l) := by
  cases l with
  | nil => rfl
  | cons c r =>
    obtain ⟨h1, h2⟩ := h c rfl
    rw [splitSign, if_neg h1, if_neg h2]

theorem lowerEq_false_of_head {c : Char} {r w : List Char} {w0 : Char}
    (hc : ¬(asciiLower c = w0)) : lowerEq (c :: r) (w0 :: w) = false := by
  simp [lowerEq, hc]

theorem mk_ne_empty {l : List Char} (h : l ≠ []) : (⟨l⟩ : String) ≠ "" :=
  fun e => h (congrArg String.data e)

theorem parseDecLit_digits_dot {neg : Bool} {A B : List Char} (hA : A ≠ [])
    (hAd : ∀ c ∈ A, isPyDigit c = true) (hBd : ∀ c ∈ B, isPyDigit c = true) :
    parseDecLit neg (A ++ '.' :: B) = some ⟨neg, A, B, false, []⟩ := by
  have hdot : isPyDigit '.' = false := by decide
  obtain ⟨ht, hd⟩ := takeWhile_append_not B hAd hdot
  obtain ⟨htB, hdB⟩ := takeWhile_all hBd
  simp only [parseDecLit, ht, hd, htB, hdB]
  rw [if_neg (fun hc => hA hc.1)]
  rfl

theorem parseDecLit_digits {neg : Bool} {A : List Char} (hA : A ≠ [])
    (hAd : ∀ c ∈ A, isPyDigit c = true) :
    parseDecLit neg A = some ⟨neg, A, [], false, []⟩ := by
  obtain ⟨ht, hd⟩ := takeWhile_all hAd
  simp only [parseDecLit, ht, hd]
  rw [if_neg hA]
  rfl

theorem pyLitChars_digit_head {l : List Char} {a0 : Char} {r : List Char}
    (he : l = a0 :: r) (ha0 : isPyDigit a0 = true)
    (hsp : ∀ c ∈ l, isPySpace c = false)
    (hus : ∀ c ∈ l, ¬(c = '_')) :
    pyLitChars l = (parseDecLit false (l.filter (fun c => c ≠ '_'))).map PyLit.num := by
  subst he
  have hlow : asciiLower a0 = a0 := asciiLower_of_isPyDigit ha0
  have hni : ¬(asciiLower a0 = 'i') := by rw [hlow]; exact digit_ne ha0 (by decide)
  have hnn : ¬(asciiLower a0 = 'n') := by rw [hlow]; exact digit_ne ha0 (by decide)
  have hsign : splitSign (a0 :: r) = (false, a0 :: r) :=
    splitSign_eq_self (fun c hc => by
      simp only [List.head?_cons, Option.some.injEq] at hc
      subst hc
      exact ⟨digit_ne ha0 (by decide), digit_ne ha0 (by decide)⟩)
  have h1 : lowerEq (a0 :: r) ['i', 'n', 'f'] = false := lowerEq_false_of_head hni
  have h2 : lowerEq (a0 :: r) ['i', 'n', 'f', 'i', 'n', 'i', 't', 'y'] = false :=
    lowerEq_false_of_head hni
  have h3 : lowerEq (a0 :: r) ['n', 'a', 'n'] = false := lowerEq_false_of_head hnn
  simp only [pyLitChars, pyTrim_eq_self hsp, hsign, h1, h2, h3]
  simp [underscoresOk_of hus]

theorem pyLitChars_digits_dot_digits {A B : List Char} (hA : A ≠ [])
    (hAd : ∀ c ∈ A, isPyDigit c = true) (hBd : ∀ c ∈ B, isPyDigit c = true) :
    pyLitChars (A ++ '.' :: B) = some (.num ⟨false, A, B, false, []⟩) := by
  have hclass : ∀ c ∈ A ++ '.' :: B, isPyDigit c = true ∨ c = '.' := by
    intro c hc
    rcases List.mem_append.mp hc with h | h
    · exact Or.inl (hAd c h)
    · rcases List.mem_cons.mp h with h | h
      · exact Or.inr h
      · exact Or.inl (hBd c h)
  have hsp : ∀ c ∈ A ++ '.' :: B, isPySpace c = false := by
    intro c hc
    rcases hclass c hc with h | h
    · exact isPySpace_eq_false_of_digit h
    · subst h; decide
  have hus : ∀ c ∈ A ++ '.' :: B, ¬(c = '_') := by
    intro c hc
    rcases hclass c hc with h | h
    · exact digit_ne h (by decide)
    · subst h; decide
  obtain ⟨a0, A', rfl⟩ := List.exists_cons_of_ne_nil hA
  rw [pyLitChars_digit_head (List.cons_append a0 A' ('.' :: B)) (hAd a0 (by simp)) hsp hus,
    filter_of_no_underscore hus, parseDecLit_digits_dot hA hAd hBd]
  rfl

theorem pyLitChars_digits {A : List Char} (hA : A ≠ [])
    (hAd : ∀ c ∈ A, isPyDigit c = true) :
    pyLitChars A = some (.num ⟨false, A, [], false, []⟩) := by
  have hsp : ∀ c ∈ A, isPySpace c = false :=
    fun c hc => isPySpace_eq_false_of_digit (hAd c hc)
  have hus : ∀ c ∈ A, ¬(c = '_') :=
    fun c hc => digit_ne (hAd c hc) (by decide)
  obtain ⟨a0, A', rfl⟩ := List.exists_cons_of_ne_nil hA
  rw [pyLitChars_digit_head rfl (hAd a0 (by simp)) hsp hus,
    filter_of_no_underscore hus, parseDecLit_digits hA hAd]
  rfl

theorem pyFloatChars_decimal {A B : List Char} (hA : A ≠ [])
    (hAd : ∀ c ∈ A, isPyDigit c = true) (hBd : ∀ c ∈ B, isPyDigit c = true) :
    pyFloatChars (A ++ '.' :: B) =
      some (.finite ((natOfDigits A : ℚ) + (natOfDigits B : ℚ) / 10 ^ B.length)) := by
  rw [pyFloatChars, pyLitChars_digits_dot_digits hA hAd hBd]
  simp [PyLit.value, DecLit.value]

theorem pyFloatChars_digits {A : List Char} (hA : A ≠ [])
    (hAd : ∀ c ∈ A, isPyDigit c = true) :
    pyFloatChars A = some (.finite (natOfDigits A : ℚ)) := by
  rw [pyFloatChars, pyLitChars_digits hA hAd]
  simp [PyLit.value, DecLit.value]

theorem foldl_digits_aux {ds : List Nat} (h : ∀ d ∈ ds, d ≤ 9) :
    ∀ a : Nat, (ds.map Nat.digitChar).foldl (fun acc c => 10 * acc + digitVal c) a =
      ds.foldl (fun acc d => 10 * acc + d) a := by
  induction ds with
  | nil => intro a; rfl
  | cons d rest ih =>
    intro a
    simp only [List.map_cons, List.foldl_cons]
    rw [digitVal_digitChar (h d (by simp))]
    exact ih (fun x hx => h x (by simp [hx])) (10 * a + d)

theorem natOfDigits_map_digitChar {ds : List Nat} (h : ∀ d ∈ ds, d ≤ 9) :
    natOfDigits (ds.map Nat.digitChar) = valOfDigits ds :=
  foldl_digits_aux h 0

theorem map_digitChar_isPyDigit {ds : List Nat} (h : ∀ d ∈ ds, d ≤ 9) :
    ∀ c ∈ ds.map Nat.digitChar, isPyDigit c = true := by
  intro c hc
  obtain ⟨d, hd, rfl⟩ := List.mem_map.mp hc
  exact isPyDigit_digitChar (h d hd)

theorem map_subst_digits {ds : List Nat} (h : ∀ d ∈ ds, d ≤ 9) :
    (ds.map Nat.digitChar).map (fun c => if c = ',' then '.' else c) =
      ds.map Nat.digitChar :=
  calc (ds.map Nat.digitChar).map (fun c => if c = ',' then '.' else c)
      = (ds.map Nat.digitChar).map id :=
        List.map_congr_left (fun c hc =>
          if_neg (digit_ne (map_digitChar_isPyDigit h c hc) (by decide)))
    _ = ds.map Nat.digitChar := List.map_id _

theorem map_digitChar_ne_nil {ds : List Nat} (h : ds ≠ []) :
    ds.map Nat.digitChar ≠ [] := by
  cases ds with
  | nil => exact absurd rfl h
  | cons d r => simp

theorem parse_german_number_decimal {ds es : List Nat} (hds : ds ≠ []) (_hes : es ≠ [])
    (hd9 : ∀ d ∈ ds, d ≤ 9) (he9 : ∀ d ∈ es, d ≤ 9) :
    parse_german_number ⟨ds.map Nat.digitChar ++ ',' :: es.map Nat.digitChar⟩ =
      some (.finite (decimalValue ds es)) := by
  have hne : ds.map Nat.digitChar ++ ',' :: es.map Nat.digitChar ≠ [] := by simp
  rw [parse_german_number, if_neg (mk_ne_empty hne)]
  show pyFloatChars ((ds.map Nat.digitChar ++ ',' :: es.map Nat.digitChar).map
    (fun c => if c = ',' then '.' else c)) = _
  have hmap : (ds.map Nat.digitChar ++ ',' :: es.map Nat.digitChar).map
      (fun c => if c = ',' then '.' else c) =
      ds.map Nat.digitChar ++ '.' :: es.map Nat.digitChar := by
    rw [List.map_append, List.map_cons, if_pos rfl, map_subst_digits hd9,
      map_subst_digits he9]
  rw [hmap, pyFloatChars_decimal (map_digitChar_ne_nil hds)
    (map_digitChar_isPyDigit hd9) (map_digitChar_isPyDigit he9),
    natOfDigits_map_digitChar hd9, natOfDigits_map_digitChar he9]
  simp [decimalValue]

theorem dchar0 : Nat.digitChar 0 = '0' := by decide

theorem dchar1 : Nat.digitChar 1 = '1' := by decide

theorem dchar2 : Nat.digitChar 2 = '2' := by decide

theorem dchar3 : Nat.digitChar 3 = '3' := by decide

theorem dchar4 : Nat.digitChar 4 = '4' := by decide

theorem dchar5 : Nat.digitChar 5 = '5' := by decide

theorem dchar6 : Nat.digitChar 6 = '6' := by decide

theorem dchar7 : Nat.digitChar 7 = '7' := by decide

theorem dchar8 : Nat.digitChar 8 = '8' := by decide

theorem dchar9 : Nat.digitChar 9 = '9' := by decide

theorem natOfDigits_four {a b c d : Nat} (ha : a ≤ 9) (hb : b ≤ 9) (hc : c ≤ 9)
    (hd : d ≤ 9) :
    natOfDigits [Nat.digitChar a, Nat.digitChar b, Nat.digitChar c, Nat.digitChar d] =
      1000 * a + 100 * b + 10 * c + d := by
  simp only [natOfDigits, List.foldl_cons, List.foldl_nil,
    digitVal_digitChar ha, digitVal_digitChar hb, digitVal_digitChar hc,
    digitVal_digitChar hd]
  ring

theorem strptimeYM_two_digit {a b c d m1 m2 : Nat} (ha : a ≤ 9) (hb : b ≤ 9)
    (hc : c ≤ 9) (hd : d ≤ 9) (hy : 1 ≤ 1000 * a + 100 * b + 10 * c + d)
    (hm1 : 1 ≤ 10 * m1 + m2) (hm12 : 10 * m1 + m2 ≤ 12) (hm29 : m2 ≤ 9) :
    strptimeYM [Nat.digitChar a, Nat.digitChar b, Nat.digitChar c, Nat.digitChar d,
      '-', Nat.digitChar m1, Nat.digitChar m2] =
      some ⟨1000 * a + 100 * b + 10 * c + d, 10 * m1 + m2, 1, 0, 0, 0⟩ := by
  have hm19 : m1 ≤ 1 := by omega
  interval_cases m1 <;> interval_cases m2 <;>
    first
    | (exfalso; omega)
    | simp +decide [strptimeYM, monthCands, isPyDigit_digitChar ha,
        isPyDigit_digitChar hb, isPyDigit_digitChar hc, isPyDigit_digitChar hd,
        natOfDigits_four ha hb hc hd, hy, dchar0, dchar1, dchar2, dchar3, dchar4,
        dchar5, dchar6, dchar7, dchar8, dchar9]

theorem strptimeYM_one_digit {a b c d m : Nat} (ha : a ≤ 9) (hb : b ≤ 9)
    (hc : c ≤ 9) (hd : d ≤ 9) (hy : 1 ≤ 1000 * a + 100 * b + 10 * c + d)
    (hm1 : 1 ≤ m) (hm9 : m ≤ 9) :
    strptimeYM [Nat.digitChar a, Nat.digitChar b, Nat.digitChar c, Nat.digitChar d,
      '-', Nat.digitChar m] =
      some ⟨1000 * a + 100 * b + 10 * c + d, m, 1, 0, 0, 0⟩ := by
  interval_cases m <;>
    simp +decide [strptimeYM, monthCands, isPyDigit_digitChar ha,
      isPyDigit_digitChar hb, isPyDigit_digitChar hc, isPyDigit_digitChar hd,
      natOfDigits_four ha hb hc hd, hy, dchar1, dchar2, dchar3, dchar4,
      dchar5, dchar6, dchar7, dchar8, dchar9]

/-! ### Driver lemmas -/

theorem import_clockodo_append (now : PyDateTime) (rows : List ClockodoRow) :
    ∀ (coll : List ClockodoDoc) (n : Nat),
      import_clockodo_data (fun _ _ => true) now rows coll n =
        ⟨coll ++ (import_clockodo_data (fun _ _ => true) now rows [] 0).coll,
         n + (import_clockodo_data (fun _ _ => true) now rows [] 0).imported,
         (import_clockodo_data (fun _ _ => true) now rows [] 0).success⟩ := by
  induction rows with
  | nil => intro coll n; simp [import_clockodo_data]
  | cons r rs ih =>
    intro coll n
    cases hdoc : clockodoDocument r now with
    | none => simp [import_clockodo_data, hdoc]
    | some doc =>
      simp only [import_clockodo_data, hdoc, if_pos, List.nil_append, Nat.zero_add]
      rw [ih (coll ++ [doc]) (n + 1), ih [doc] 1]
      simp [List.append_assoc]
      omega

theorem dealImportLoop_cons (insertOk : DealDoc → List DealDoc → Bool)
    (now : PyDateTime) (r : DealRow) (rows : List DealRow) (st : DealState) :
    dealImportLoop insertOk now (r :: rows) st =
      dealImportLoop insertOk now rows (dealStep insertOk now st r) := rfl

theorem dealStep_skip {insertOk : DealDoc → List DealDoc → Bool} {now : PyDateTime}
    {st : DealState} {row : DealRow}
    (h1 : ¬((transform_deal_row row now).deal_id = ""))
    (h2 : (find_one_by_deal_id st.coll (transform_deal_row row now).deal_id).isSome = true) :
    dealStep insertOk now st row = { st with skipped := st.skipped + 1 } := by
  simp only [dealStep]
  rw [if_pos ⟨h1, h2⟩]

theorem dealStep_insert {insertOk : DealDoc → List DealDoc → Bool} {now : PyDateTime}
    {st : DealState} {row : DealRow}
    (h : ¬(¬((transform_deal_row row now).deal_id = "") ∧
      (find_one_by_deal_id st.coll (transform_deal_row row now).deal_id).isSome = true))
    (hok : insertOk (transform_deal_row row now) st.coll = true) :
    dealStep insertOk now st row =
      { st with coll := st.coll ++ [transform_deal_row row now],
                imported := st.imported + 1 } := by
  simp only [dealStep]
  rw [if_neg h, if_pos hok]

theorem dealStep_caught {insertOk : DealDoc → List DealDoc → Bool} {now : PyDateTime}
    {st : DealState} {row : DealRow}
    (h : ¬(¬((transform_deal_row row now).deal_id = "") ∧
      (find_one_by_deal_id st.coll (transform_deal_row row now).deal_id).isSome = true))
    (hok : insertOk (transform_deal_row row now) st.coll = false) :
    dealStep insertOk now st row = { st with errors := st.errors + 1 } := by
  simp only [dealStep]
  rw [if_neg h, if_neg (by simp [hok])]

theorem dealStep_counts (insertOk : DealDoc → List DealDoc → Bool) (now : PyDateTime)
    (st : DealState) (row : DealRow) :
    (dealStep insertOk now st row).imported + (dealStep insertOk now st row).skipped +
      (dealStep insertOk now st row).errors =
      st.imported + st.skipped + st.errors + 1 := by
  simp only [dealStep]
  split
  · simp; omega
  · split <;> simp <;> omega

theorem dealImportLoop_counts (insertOk : DealDoc → List DealDoc → Bool)
    (now : PyDateTime) (rows : List DealRow) :
    ∀ st : DealState,
      (dealImportLoop insertOk now rows st).imported +
        (dealImportLoop insertOk now rows st).skipped +
        (dealImportLoop insertOk now rows st).errors =
        st.imported + st.skipped + st.errors + rows.length := by
  induction rows with
  | nil => intro st; simp [dealImportLoop]
  | cons r rs ih =>
    intro st
    rw [dealImportLoop_cons, ih (dealStep insertOk now st r)]
    rw [dealStep_counts]
    simp
    omega

theorem countId_append (coll : List DealDoc) (doc : DealDoc) (i : String) :
    countId (coll ++ [doc]) i =
      countId coll i + (if doc.deal_id = i then 1 else 0) := by
  simp only [countId, List.filter_append, List.length_append]
  split
  · simp [List.filter_cons, *]
  · simp [List.filter_cons, *]

theorem countId_eq_zero_of_find_none {coll : List DealDoc} {i : String}
    (h : find_one_by_deal_id coll i = none) : countId coll i = 0 := by
  have hall := List.find?_eq_none.mp h
  simp only [countId, List.length_eq_zero]
  rw [List.filter_eq_nil_iff]
  intro d hd
  simpa using hall d hd

theorem dealStep_preserves_unique {insertOk : DealDoc → List DealDoc → Bool}
    {now : PyDateTime} {st : DealState} {row : DealRow}
    (h : ∀ i, i ≠ "" → countId st.coll i ≤ 1) :
    ∀ i, i ≠ "" → countId (dealStep insertOk now st row).coll i ≤ 1 := by
  intro i hi
  by_cases hskip : ¬((transform_deal_row row now).deal_id = "") ∧
      (find_one_by_deal_id st.coll (transform_deal_row row now).deal_id).isSome = true
  · rw [dealStep_skip hskip.1 hskip.2]
    exact h i hi
  · cases hok : insertOk (transform_deal_row row now) st.coll with
    | false =>
      rw [dealStep_caught hskip hok]
      exact h i hi
    | true =>
      rw [dealStep_insert hskip hok]
      simp only [countId_append]
      by_cases hid : (transform_deal_row row now).deal_id = i
      · have hne : ¬((transform_deal_row row now).deal_id = "") := by
          rw [hid]; exact hi
        have hfind : (find_one_by_deal_id st.coll
            (transform_deal_row row now).deal_id).isSome = false := by
          rcases Bool.eq_false_or_eq_true (find_one_by_deal_id st.coll
            (transform_deal_row row now).deal_id).isSome with hf | hf
          · exact absurd ⟨hne, hf⟩ hskip
          · exact hf
        have h0 : countId st.coll i = 0 := by
          rw [← hid]
          exact countId_eq_zero_of_find_none
            (Option.not_isSome_iff_eq_none.mp (by simp [hfind]))
        rw [h0, if_pos hid]
      · rw [if_neg hid]
        simpa using h i hi

theorem dealImportLoop_preserves_unique (insertOk : DealDoc → List DealDoc → Bool)
    (now : PyDateTime) (rows : List DealRow) :
    ∀ st : DealState, (∀ i, i ≠ "" → countId st.coll i ≤ 1) →
      ∀ i, i ≠ "" → countId (dealImportLoop insertOk now rows st).coll i ≤ 1 := by
  induction rows with
  | nil => intro st h; exact h
  | cons r rs ih =>
    intro st h
    rw [dealImportLoop_cons]
    exact ih (dealStep insertOk now st r) (dealStep_preserves_unique h)

theorem dropWhile_eq_self_of {p : Char → Bool} {l : List Char}
    (h : ∀ c, l.head? = some c → p c = false) : l.dropWhile p = l := by
  cases l with
  | nil => rfl
  | cons c r => rw [List.dropWhile_cons, if_neg (by simp [h c rfl])]

theorem dropWhile_eq_decomp (ch : Char) (l : List Char) :
    ∃ n, l = List.replicate n ch ++ l.dropWhile (fun c => c = ch) ∧
      (∀ c, (l.dropWhile (fun c => c = ch)).head? = some c → ¬(c = ch)) := by
  induction l with
  | nil => exact ⟨0, rfl, fun c hc => by simp at hc⟩
  | cons a r ih =>
    by_cases ha : a = ch
    · obtain ⟨n, he, hh⟩ := ih
      subst ha
      refine ⟨n + 1, ?_, ?_⟩
      · rw [List.dropWhile_cons, if_pos (by simp), List.replicate_succ,
          List.cons_append]
        exact congrArg (a :: ·) he
      · rw [List.dropWhile_cons, if_pos (by simp)]
        exact hh
    · refine ⟨0, ?_, ?_⟩
      · rw [List.dropWhile_cons, if_neg (by simp [ha])]
        simp
      · rw [List.dropWhile_cons, if_neg (by simp [ha])]
        intro c hc
        simp only [List.head?_cons, Option.some.injEq] at hc
        subst hc
        exact ha

theorem pyStripChar_spec (ch : Char) (l : List Char) :
    ∃ n m, l = List.replicate n ch ++ pyStripChar ch l ++ List.replicate m ch ∧
      (∀ c, (pyStripChar ch l).head? = some c → ¬(c = ch)) ∧
      (∀ c, (pyStripChar ch l).getLast? = some c → ¬(c = ch)) := by
  obtain ⟨n, he1, hh1⟩ := dropWhile_eq_decomp ch l
  obtain ⟨m, he2, hh2⟩ := dropWhile_eq_decomp ch (l.dropWhile (fun c => c = ch)).reverse
  have hps : pyStripChar ch l =
      ((l.dropWhile (fun c => c = ch)).reverse.dropWhile (fun c => c = ch)).reverse := rfl
  have ht : l.dropWhile (fun c => c = ch) =
      ((l.dropWhile (fun c => c = ch)).reverse.dropWhile (fun c => c = ch)).reverse ++
        List.replicate m ch := by
    have := congrArg List.reverse he2
    simpa [List.reverse_append, List.reverse_replicate] using this
  refine ⟨n, m, ?_, ?_, ?_⟩
  · rw [hps, List.append_assoc, ← ht, ← he1]
  · intro c hc
    rw [hps] at hc
    apply hh1 c
    rw [ht]
    cases hu : ((l.dropWhile (fun c => c = ch)).reverse.dropWhile
        (fun c => c = ch)).reverse with
    | nil => rw [hu] at hc; simp at hc
    | cons x xs =>
      rw [hu] at hc
      simp only [List.head?_cons, Option.some.injEq] at hc
      subst hc
      simp
  · intro c hc
    rw [hps, List.getLast?_reverse] at hc
    exact hh2 c hc

theorem pyTrim_eq_nil_iff {l : List Char} :
    pyTrim l = [] ↔ ∀ c ∈ l, isPySpace c = true := by
  unfold pyTrim
  rw [List.reverse_eq_nil_iff, List.dropWhile_eq_nil_iff]
  constructor
  · intro h c hc
    rcases List.mem_append.mp (by rw [List.takeWhile_append_dropWhile]; exact hc :
        c ∈ l.takeWhile isPySpace ++ l.dropWhile isPySpace) with hm | hm
    · exact List.mem_takeWhile_imp hm
    · exact h c (List.mem_reverse.mpr hm)
  · intro h c hc
    exact h c (List.dropWhile_sublist isPySpace |>.mem (List.mem_reverse.mp hc))

theorem pyFloatChars_of_trim_nil {l : List Char} (h : pyTrim l = []) :
    pyFloatChars l = none := by
  simp only [pyFloatChars, pyLitChars, h]
  decide

/-! ### Claim theorems -/

/-- C3: the timesheet number parser maps the empty string to `0.0` (never an
error or an absent value); every well-formed decimal numeral written with a
comma as decimal separator is mapped to its mathematical value via simple
comma-for-dot substitution (e.g. `"12,5"` yields `12.5`); and no
thousand-separator handling exists: `"1.234,50"` is a fatal parse error, not
`1234.5`. -/
theorem c3_german_number :
    parse_german_number "" = some (.finite 0) ∧
    (∀ ds es : List Nat, ds ≠ [] → es ≠ [] → (∀ d ∈ ds, d ≤ 9) → (∀ d ∈ es, d ≤ 9) →
      parse_german_number ⟨ds.map Nat.digitChar ++ ',' :: es.map Nat.digitChar⟩ =
        some (.finite (decimalValue ds es))) ∧
    parse_german_number "12,5" = some (.finite (25 / 2)) ∧
    parse_german_number "1.234,50" = none := by
  refine ⟨by decide,
    fun ds es h1 h2 h3 h4 => parse_german_number_decimal h1 h2 h3 h4, ?_, by decide⟩
  have h1 : pyLitChars ['1', '2', '.', '5'] =
      some (.num ⟨false, ['1', '2'], ['5'], false, []⟩) := by decide
  have h2 : pyFloatChars ['1', '2', '.', '5'] =
      some (.finite (DecLit.value ⟨false, ['1', '2'], ['5'], false, []⟩)) := by
    rw [pyFloatChars, h1]; rfl
  have h3 : DecLit.value ⟨false, ['1', '2'], ['5'], false, []⟩ = 25 / 2 := by
    simp [DecLit.value, show natOfDigits ['1', '2'] = 12 from by decide,
      show natOfDigits ['5'] = 5 from by decide]
    norm_num
  rw [parse_german_number, if_neg (by decide)]
  show pyFloatChars ['1', '2', '.', '5'] = _
  rw [h2, h3]

/-- C3 witness: the general comma-decimal clause applied to the digits of
`"12,5"`. -/
theorem c3_witness :
    parse_german_number ⟨[1, 2].map Nat.digitChar ++ ',' :: [5].map Nat.digitChar⟩ =
      some (.finite (decimalValue [1, 2] [5])) :=
  c3_german_number.2.1 [1, 2] [5] (by decide) (by decide) (by decide) (by decide)

/-- C4: a non-empty string on which the numeric conversion fails after
comma-for-dot substitution makes `parse_german_number` raise (modelled as
`none`); the raised error makes the row transformation fail, and a failing
transformation aborts the whole timesheet run with `success = false`,
leaving the remaining rows unprocessed. -/
theorem c4_malformed_number_fatal :
    (∀ s : String, ¬(s = "") →
      pyFloatChars (s.data.map fun c => if c = ',' then '.' else c) = none →
      parse_german_number s = none) ∧
    (∀ row now, parse_german_number row.stunden = none →
      clockodoDocument row now = none) ∧
    (∀ insertOk now row rows coll n, clockodoDocument row now = none →
      import_clockodo_data insertOk now (row :: rows) coll n = ⟨coll, n, false⟩) ∧
    parse_german_number "abc" = none := by
  refine ⟨?_, ?_, ?_, by decide⟩
  · intro s hs h
    rw [parse_german_number, if_neg hs]
    exact h
  · intro row now h
    cases h2 : parse_german_number (pyStripQ row.umsatz) <;>
      simp [clockodoDocument, h, h2]
  · intro insertOk now row rows coll n h
    simp [import_clockodo_data, h]

/-- C4 witness: a one-row file with the malformed hours value `"abc"` aborts
immediately with a failure result. -/
theorem c4_witness :
    import_clockodo_data (fun _ _ => true) epoch
      [⟨"k", "p", "m", "l", "mi", "abc", ""⟩] [] 0 = ⟨[], 0, false⟩ :=
  c4_malformed_number_fatal.2.2.1 (fun _ _ => true) epoch
    ⟨"k", "p", "m", "l", "mi", "abc", ""⟩ [] [] 0 (by decide)

/-- C5: the deal number parser returns the absent value (`None`, not zero)
without a warning on empty or whitespace-only input; on any other input it
returns the `float` value without a warning when the conversion succeeds,
and logs a warning and returns absent (instead of aborting) when it fails. -/
theorem c5_deal_number :
    (∀ s : String, s.data.all isPySpace = true → parse_number s = (none, false)) ∧
    (∀ s : String, ¬(s.data.all isPySpace = true) → pyFloatChars s.data = none →
      parse_number s = (none, true)) ∧
    (∀ (s : String) (v : PyFloat), pyFloatChars s.data = some v →
      parse_number s = (some v, false)) ∧
    parse_number "" = (none, false) ∧
    parse_number " " = (none, false) ∧
    parse_number "abc" = (none, true) ∧
    parse_number "3.5" = (some (.finite (7 / 2)), false) := by
  refine ⟨?_, ?_, ?_, by decide, by decide, by decide, ?_⟩
  · intro s h
    rw [List.all_eq_true] at h
    rw [parse_number, if_pos (Or.inr (pyTrim_eq_nil_iff.mpr h))]
  · intro s h hf
    rw [parse_number, if_neg ?hcond]
    · simp only [hf]
    case hcond =>
      rintro (rfl | ht)
      · exact h rfl
      · exact h (by rw [List.all_eq_true]; exact pyTrim_eq_nil_iff.mp ht)
  · intro s v hf
    rw [parse_number, if_neg ?hc]
    · simp only [hf]
    case hc =>
      rintro (rfl | ht)
      · rw [show pyFloatChars ("" : String).data = none from by decide] at hf
        cases hf
      · rw [pyFloatChars_of_trim_nil ht] at hf
        cases hf
  · have h1 : pyLitChars "3.5".data =
        some (.num ⟨false, ['3'], ['5'], false, []⟩) := by decide
    have h2 : pyFloatChars "3.5".data =
        some (.finite (DecLit.value ⟨false, ['3'], ['5'], false, []⟩)) := by
      rw [pyFloatChars, h1]; rfl
    have h3 : DecLit.value ⟨false, ['3'], ['5'], false, []⟩ = 7 / 2 := by
      simp [DecLit.value, show natOfDigits ['3'] = 3 from by decide,
        show natOfDigits ['5'] = 5 from by decide]
      norm_num
    rw [parse_number, if_neg (by decide), h2, h3]

/-- C5 witness: the warning clause applied to the malformed input `"xy"`. -/
theorem c5_witness : parse_number "xy" = (none, true) :=
  c5_deal_number.2.1 "xy" (by decide) (by decide)

/-- C6 counterexample: `"2025-9"` is not of the shape `YYYY-MM`, yet the
timesheet date parser accepts it (CPython `%m` also matches single-digit
months), so "accepts exactly the shape YYYY-MM" is false as stated. -/
theorem c6_counterexample :
    isShapeYYYYMM "2025-9" = false ∧ ¬(parse_month "2025-9" = none) := by
  constructor <;> decide

/-- C6 (amended): the timesheet date parser accepts a four-digit year, a
dash, and a one- OR two-digit month between 1 and 12, returning the first of
that month; `"2025-09"` yields September 2025, while `"2025-13"`,
`"2025-00"`, `"not-a-date"` and the out-of-range year `"0000-09"` yield
absent.  The function prints nothing in any case (it has no warning channel
at all, faithfully to the code). -/
theorem c6_month_parsing :
    (∀ a b c d m1 m2 : Nat, a ≤ 9 → b ≤ 9 → c ≤ 9 → d ≤ 9 →
      1 ≤ 1000 * a + 100 * b + 10 * c + d →
      1 ≤ 10 * m1 + m2 → 10 * m1 + m2 ≤ 12 → m2 ≤ 9 →
      parse_month ⟨[Nat.digitChar a, Nat.digitChar b, Nat.digitChar c, Nat.digitChar d,
        '-', Nat.digitChar m1, Nat.digitChar m2]⟩ =
        some ⟨1000 * a + 100 * b + 10 * c + d, 10 * m1 + m2, 1, 0, 0, 0⟩) ∧
    (∀ a b c d m : Nat, a ≤ 9 → b ≤ 9 → c ≤ 9 → d ≤ 9 →
      1 ≤ 1000 * a + 100 * b + 10 * c + d → 1 ≤ m → m ≤ 9 →
      parse_month ⟨[Nat.digitChar a, Nat.digitChar b, Nat.digitChar c, Nat.digitChar d,
        '-', Nat.digitChar m]⟩ =
        some ⟨1000 * a + 100 * b + 10 * c + d, m, 1, 0, 0, 0⟩) ∧
    parse_month "2025-09" = some ⟨2025, 9, 1, 0, 0, 0⟩ ∧
    parse_month "2025-13" = none ∧
    parse_month "2025-00" = none ∧
    parse_month "not-a-date" = none ∧
    parse_month "0000-09" = none := by
  exact ⟨fun a b c d m1 m2 ha hb hc hd hy h1 h2 h3 =>
      strptimeYM_two_digit ha hb hc hd hy h1 h2 h3,
    fun a b c d m ha hb hc hd hy h1 h2 =>
      strptimeYM_one_digit ha hb hc hd hy h1 h2,
    by decide, by decide, by decide, by decide, by decide⟩

/-- C6 witness: the two-digit clause applied to the digits of `"2025-09"`. -/
theorem c6_witness :
    parse_month ⟨[Nat.digitChar 2, Nat.digitChar 0, Nat.digitChar 2, Nat.digitChar 5,
      '-', Nat.digitChar 0, Nat.digitChar 9]⟩ =
      some ⟨1000 * 2 + 100 * 0 + 10 * 2 + 5, 10 * 0 + 9, 1, 0, 0, 0⟩ :=
  c6_month_parsing.1 2 0 2 5 0 9 (by decide) (by decide) (by decide) (by decide)
    (by decide) (by decide) (by decide) (by decide)

/-- C7: the deal date parser returns absent without a warning on empty or
whitespace-only input; input containing a blank goes through the
`'%Y-%m-%d %H:%M:%S'` parse and other input through `'%Y-%m-%d'` (returning
midnight), in both cases returning the parsed timestamp silently on success
and absent plus a printed warning on failure.  Concretely,
`"2025-09-05 10:42:00"` yields that exact timestamp, `"2025-09-05"` yields
midnight of that day, and `"garbage"` yields absent with a warning. -/
theorem c7_deal_date :
    (∀ s : String, s.data.all isPySpace = true → parse_date s = (none, false)) ∧
    (∀ (s : String) (dt : PyDateTime), ¬(s.data.all isPySpace = true) →
      ' ' ∈ s.data → strptimeFull s.data = some dt → parse_date s = (some dt, false)) ∧
    (∀ s : String, ¬(s.data.all isPySpace = true) → ' ' ∈ s.data →
      strptimeFull s.data = none → parse_date s = (none, true)) ∧
    (∀ (s : String) (dt : PyDateTime), ¬(s.data.all isPySpace = true) →
      ¬(' ' ∈ s.data) → strptimeYMD s.data = some dt →
      parse_date s = (some dt, false)) ∧
    (∀ s : String, ¬(s.data.all isPySpace = true) → ¬(' ' ∈ s.data) →
      strptimeYMD s.data = none → parse_date s = (none, true)) ∧
    parse_date "2025-09-05 10:42:00" = (some ⟨2025, 9, 5, 10, 42, 0⟩, false) ∧
    parse_date "2025-09-05" = (some ⟨2025, 9, 5, 0, 0, 0⟩, false) ∧
    parse_date "garbage" = (none, true) ∧
    parse_date "" = (none, false) ∧
    parse_date "  " = (none, false) := by
  have hcond : ∀ s : String, ¬(s.data.all isPySpace = true) →
      ¬(s = "" ∨ pyTrim s.data = []) := by
    intro s h
    rintro (rfl | ht)
    · exact h rfl
    · exact h (by rw [List.all_eq_true]; exact pyTrim_eq_nil_iff.mp ht)
  refine ⟨?_, ?_, ?_, ?_, ?_, by decide, by decide, by decide, by decide, by decide⟩
  · intro s h
    rw [List.all_eq_true] at h
    rw [parse_date, if_pos (Or.inr (pyTrim_eq_nil_iff.mpr h))]
  · intro s dt h hsp hf
    rw [parse_date, if_neg (hcond s h), if_pos hsp]
    simp only [hf]
  · intro s h hsp hf
    rw [parse_date, if_neg (hcond s h), if_pos hsp]
    simp only [hf]
  · intro s dt h hsp hf
    rw [parse_date, if_neg (hcond s h), if_neg hsp]
    simp only [hf]
  · intro s h hsp hf
    rw [parse_date, if_neg (hcond s h), if_neg hsp]
    simp only [hf]

/-- C7 witness: the full-timestamp clause applied to
`"2025-09-05 10:42:00"`. -/
theorem c7_witness :
    parse_date "2025-09-05 10:42:00" = (some ⟨2025, 9, 5, 10, 42, 0⟩, false) :=
  c7_deal_date.2.1 "2025-09-05 10:42:00" ⟨2025, 9, 5, 10, 42, 0⟩ (by decide)
    (by decide) (by decide)

/-- C1 counterexample: on the raw value `""a""` (two layers of surrounding
quotes) the transformer's `strip('"')` removes BOTH layers, producing `a`,
while stripping exactly one layer would produce `"a"` — so "exactly one
layer of leading/trailing quote characters stripped" is false as stated. -/
theorem c1_counterexample :
    (clockodoDocument ⟨"\"\"a\"\"", "", "", "", "", "", ""⟩ epoch).map
      (fun d => d.kunde) = some "a" ∧
    stripOneLayerQ "\"\"a\"\"" = "\"a\"" ∧
    ¬(("a" : String) = "\"a\"") :=
  ⟨by decide, by decide, by decide⟩

/-- C1 (amended): the timesheet transformer applies Python `strip('"')` to
its four quoted string fields, which removes ALL leading and trailing quote
characters (coinciding with one-layer stripping whenever only one layer is
present), while `monat` is copied verbatim; the deal transformer copies
every string field verbatim, with no quote stripping at all. -/
theorem c1_quote_stripping :
    (∀ row now doc, clockodoDocument row now = some doc →
      doc.kunde = pyStripQ row.kunde ∧ doc.projekt = pyStripQ row.projekt ∧
      doc.leistung = pyStripQ row.leistung ∧
      doc.mitarbeiter = pyStripQ row.mitarbeiter ∧ doc.monat = row.monat) ∧
    (∀ s : String, ∃ n m,
      s.data = List.replicate n '"' ++ (pyStripQ s).data ++ List.replicate m '"' ∧
      (∀ c, (pyStripQ s).data.head? = some c → ¬(c = '"')) ∧
      (∀ c, (pyStripQ s).data.getLast? = some c → ¬(c = '"'))) ∧
    (∀ t : List Char, (∀ c, t.head? = some c → ¬(c = '"')) →
      (∀ c, t.getLast? = some c → ¬(c = '"')) →
      pyStripQ ⟨'"' :: (t ++ ['"'])⟩ = ⟨t⟩) ∧
    (∀ row now,
      (transform_deal_row row now).title = row.titel ∧
      (transform_deal_row row now).organization = row.organisation ∧
      (transform_deal_row row now).status = row.status ∧
      (transform_deal_row row now).loss_reason = row.verlustgrund ∧
      (transform_deal_row row now).owner = row.besitzer ∧
      (transform_deal_row row now).phase = row.phase ∧
      (transform_deal_row row now).contact_person = row.kontaktperson ∧
      (transform_deal_row row now).deal_id = row.id ∧
      (transform_deal_row row now).label = row.label ∧
      (transform_deal_row row now).visibility = row.sichtbar_fuer ∧
      (transform_deal_row row now).pipeline = row.pipeline) := by
  refine ⟨?_, fun s => pyStripChar_spec '"' s.data, ?_, ?_⟩
  · intro row now doc h
    cases h1 : parse_german_number row.stunden with
    | none => simp [clockodoDocument, h1] at h
    | some st =>
      cases h2 : parse_german_number (pyStripQ row.umsatz) with
      | none => simp [clockodoDocument, h1, h2] at h
      | some um =>
        simp only [clockodoDocument, h1, h2, Option.some.injEq] at h
        subst h
        exact ⟨rfl, rfl, rfl, rfl, rfl⟩
  · intro t h1 h2
    cases t with
    | nil => decide
    | cons x xs =>
      have hx : ¬(x = '"') := h1 x rfl
      show (⟨pyStripChar '"' ('"' :: (x :: xs ++ ['"']))⟩ : String) = ⟨x :: xs⟩
      congr 1
      unfold pyStripChar
      have s1 : List.dropWhile (fun c => c = '"') ('"' :: (x :: xs ++ ['"'])) =
          x :: (xs ++ ['"']) := by
        rw [List.dropWhile_cons, if_pos (by simp), List.cons_append,
          List.dropWhile_cons, if_neg (by simp [hx])]
      have s2 : (x :: (xs ++ ['"'])).reverse = '"' :: (x :: xs).reverse := by
        simp
      have s3 : List.dropWhile (fun c => c = '"') (x :: xs).reverse =
          (x :: xs).reverse := by
        apply dropWhile_eq_self_of
        intro c hc
        rw [List.head?_reverse] at hc
        simp [h2 c hc]
      rw [s1, s2, List.dropWhile_cons, if_pos (by simp), s3, List.reverse_reverse]
  · intro row now
    exact ⟨rfl, rfl, rfl, rfl, rfl, rfl, rfl, rfl, rfl, rfl, rfl⟩

/-- C1 witness: the single-layer clause applied to `"a"` surrounded by one
quote layer. -/
theorem c1_witness : pyStripQ ⟨'"' :: (['a'] ++ ['"'])⟩ = ⟨['a']⟩ :=
  c1_quote_stripping.2.2.1 ['a']
    (by intro c hc; simp at hc; subst hc; decide)
    (by intro c hc; simp at hc; subst hc; decide)

/-- C2 counterexample: two rows whose deal identifier is the empty string
bypass the existence check — both are inserted and none skipped, so two
documents share one identifier and the claim is false as stated at the
empty identifier. -/
theorem c2_counterexample :
    countId (dealImportLoop (fun _ _ => true) epoch [blankDealRow, blankDealRow]
      ⟨[], 0, 0, 0⟩).coll "" = 2 ∧
    (dealImportLoop (fun _ _ => true) epoch [blankDealRow, blankDealRow]
      ⟨[], 0, 0, 0⟩).skipped = 0 := by
  constructor <;> decide

/-- C2 (amended): for NON-EMPTY deal identifiers the pipeline is idempotent:
the pre-insert existence check preserves the invariant that a non-empty
identifier occurs at most once in the collection, importing two rows with
the same non-empty identifier into an empty collection yields exactly one
document with that identifier (the second row counted as skipped, not an
error), and the finalize step registers a unique (sparse) index on
`deal_id`. -/
theorem c2_deal_idempotency :
    (∀ insertOk now rows st, (∀ i, i ≠ "" → countId st.coll i ≤ 1) →
      ∀ i, i ≠ "" → countId (dealImportLoop insertOk now rows st).coll i ≤ 1) ∧
    (∀ (r1 r2 : DealRow) (now : PyDateTime) (i : String), i ≠ "" →
      r1.id = i → r2.id = i →
      countId (dealImportLoop (fun _ _ => true) now [r1, r2]
        ⟨[], 0, 0, 0⟩).coll i = 1 ∧
      (dealImportLoop (fun _ _ => true) now [r1, r2] ⟨[], 0, 0, 0⟩).imported = 1 ∧
      (dealImportLoop (fun _ _ => true) now [r1, r2] ⟨[], 0, 0, 0⟩).skipped = 1) ∧
    (⟨"deal_id", true, true⟩ : IndexSpec) ∈ deals_indexes := by
  refine ⟨fun insertOk now rows st h =>
      dealImportLoop_preserves_unique insertOk now rows st h, ?_, by simp [deals_indexes]⟩
  intro r1 r2 now i hi h1 h2
  have hd1 : (transform_deal_row r1 now).deal_id = i := h1
  have hd2 : (transform_deal_row r2 now).deal_id = i := h2
  have e1 : dealStep (fun _ _ => true) now ⟨[], 0, 0, 0⟩ r1 =
      ⟨[transform_deal_row r1 now], 1, 0, 0⟩ := by
    have hn : ¬(¬((transform_deal_row r1 now).deal_id = "") ∧
        (find_one_by_deal_id (DealState.mk [] 0 0 0).coll
          (transform_deal_row r1 now).deal_id).isSome = true) := by
      rintro ⟨hne, hsome⟩
      simp [find_one_by_deal_id] at hsome
    rw [dealStep_insert hn rfl]
    simp
  have e2 : dealStep (fun _ _ => true) now
      ⟨[transform_deal_row r1 now], 1, 0, 0⟩ r2 =
      ⟨[transform_deal_row r1 now], 1, 1, 0⟩ := by
    rw [dealStep_skip ?a ?b]
    case a => rw [hd2]; exact hi
    case b => simp [find_one_by_deal_id, hd2, hd1]
  rw [show dealImportLoop (fun _ _ => true) now [r1, r2] ⟨[], 0, 0, 0⟩ =
    dealStep (fun _ _ => true) now
      (dealStep (fun _ _ => true) now ⟨[], 0, 0, 0⟩ r1) r2 from rfl]
  rw [e1, e2]
  refine ⟨?_, rfl, rfl⟩
  simp [countId, hd1]

/-- C2 witness: the two-row clause applied to two rows with identifier
`"X"`. -/
theorem c2_witness :
    countId (dealImportLoop (fun _ _ => true) epoch
      [{ blankDealRow with id := "X" }, { blankDealRow with id := "X" }]
      ⟨[], 0, 0, 0⟩).coll "X" = 1 ∧
    (dealImportLoop (fun _ _ => true) epoch
      [{ blankDealRow with id := "X" }, { blankDealRow with id := "X" }]
      ⟨[], 0, 0, 0⟩).imported = 1 ∧
    (dealImportLoop (fun _ _ => true) epoch
      [{ blankDealRow with id := "X" }, { blankDealRow with id := "X" }]
      ⟨[], 0, 0, 0⟩).skipped = 1 :=
  c2_deal_idempotency.2.1 { blankDealRow with id := "X" }
    { blankDealRow with id := "X" } epoch "X" (by decide) rfl rfl

/-- C8: in the deal loop every row reaches a terminal outcome
(imported/skipped/caught-error) and the loop always continues to the next
row — in particular a failed insert is merely counted; in the timesheet loop
a failed insert terminates the run at once with `success = false`, the
already-inserted documents kept and the remaining rows unprocessed. -/
theorem c8_per_row_error_policy :
    (∀ insertOk now r rows st, dealImportLoop insertOk now (r :: rows) st =
      dealImportLoop insertOk now rows (dealStep insertOk now st r)) ∧
    (∀ insertOk now rows st,
      (dealImportLoop insertOk now rows st).imported +
        (dealImportLoop insertOk now rows st).skipped +
        (dealImportLoop insertOk now rows st).errors =
        st.imported + st.skipped + st.errors + rows.length) ∧
    (∀ insertOk now st row,
      ¬(¬((transform_deal_row row now).deal_id = "") ∧
        (find_one_by_deal_id st.coll (transform_deal_row row now).deal_id).isSome = true) →
      insertOk (transform_deal_row row now) st.coll = false →
      dealStep insertOk now st row = { st with errors := st.errors + 1 }) ∧
    (∀ insertOk now row rows coll n doc, clockodoDocument row now = some doc →
      insertOk doc coll = false →
      import_clockodo_data insertOk now (row :: rows) coll n = ⟨coll, n, false⟩) := by
  refine ⟨dealImportLoop_cons, dealImportLoop_counts,
    fun insertOk now st row h hok => dealStep_caught h hok, ?_⟩
  intro insertOk now row rows coll n doc hdoc hok
  simp [import_clockodo_data, hdoc, hok]

/-- C8 witness: a one-row timesheet import with a failing sink aborts with
a failure result. -/
theorem c8_witness :
    import_clockodo_data (fun _ _ => false) epoch
      [⟨"", "", "", "", "", "", ""⟩] [] 0 = ⟨[], 0, false⟩ :=
  c8_per_row_error_policy.2.2.2 (fun _ _ => false) epoch
    ⟨"", "", "", "", "", "", ""⟩ [] [] 0
    ⟨"", "", "", none, "", "", .finite 0, .finite 0, epoch⟩ (by decide) rfl

/-- Helper for C9: with an always-accepting sink, a run over fully
transformable rows inserts one document per row. -/
theorem import_clockodo_total (now : PyDateTime) :
    ∀ rows : List ClockodoRow, (∀ r ∈ rows, (clockodoDocument r now).isSome = true) →
      (import_clockodo_data (fun _ _ => true) now rows [] 0).coll.length =
        rows.length := by
  intro rows
  induction rows with
  | nil => intro _; rfl
  | cons r rs ih =>
    intro h
    obtain ⟨doc, hdoc⟩ := Option.isSome_iff_exists.mp (h r (by simp))
    simp only [import_clockodo_data, hdoc, if_pos, List.nil_append, Nat.zero_add]
    rw [import_clockodo_append now rs [doc] 1]
    have := ih (fun x hx => h x (by simp [hx]))
    rw [import_clockodo_append now rs [] 0] at this
    simp at this
    simp [this]

/-- C9: the timesheet import never checks for duplicates: the contents a run
appends are independent of what is already in the collection, so running the
same file twice (with an always-accepting sink) yields exactly double the
document count of one run, and a run over fully parseable rows appends one
document per source row. -/
theorem c9_timesheet_rerun_doubles :
    (∀ now rows coll n,
      (import_clockodo_data (fun _ _ => true) now rows coll n).coll =
        coll ++ (import_clockodo_data (fun _ _ => true) now rows [] 0).coll) ∧
    (∀ now rows,
      (import_clockodo_data (fun _ _ => true) now rows
        (import_clockodo_data (fun _ _ => true) now rows [] 0).coll
        (import_clockodo_data (fun _ _ => true) now rows [] 0).imported).coll.length =
        2 * (import_clockodo_data (fun _ _ => true) now rows [] 0).coll.length) ∧
    (∀ now rows, (∀ r ∈ rows, (clockodoDocument r now).isSome = true) →
      (import_clockodo_data (fun _ _ => true) now rows [] 0).coll.length =
        rows.length) := by
  have happ : ∀ now rows coll n,
      (import_clockodo_data (fun _ _ => true) now rows coll n).coll =
        coll ++ (import_clockodo_data (fun _ _ => true) now rows [] 0).coll := by
    intro now rows coll n
    rw [import_clockodo_append now rows coll n]
  refine ⟨happ, ?_, fun now rows h => import_clockodo_total now rows h⟩
  intro now rows
  rw [happ]
  simp [two_mul]

/-- C9 witness: the one-document-per-row clause applied to a one-row file. -/
theorem c9_witness :
    (import_clockodo_data (fun _ _ => true) epoch
      [⟨"", "", "", "", "", "", ""⟩] [] 0).coll.length = 1 := by
  have h := c9_timesheet_rerun_doubles.2.2 epoch [⟨"", "", "", "", "", "", ""⟩]
    (by decide)
  simpa using h

/-- C10: a row whose deal identifier field is the empty string bypasses the
existence check entirely, regardless of what the collection already
contains: it is never counted as skipped, and is inserted whenever the sink
accepts it (only a sink failure diverts it to the caught-error branch). -/
theorem c10_empty_id_bypasses_check :
    ∀ insertOk now (st : DealState) (row : DealRow), row.id = "" →
      (dealStep insertOk now st row).skipped = st.skipped ∧
      (insertOk (transform_deal_row row now) st.coll = true →
        dealStep insertOk now st row =
          { st with coll := st.coll ++ [transform_deal_row row now],
                    imported := st.imported + 1 }) ∧
      (insertOk (transform_deal_row row now) st.coll = false →
        dealStep insertOk now st row = { st with errors := st.errors + 1 }) := by
  intro insertOk now st row hid
  have hno : ¬(¬((transform_deal_row row now).deal_id = "") ∧
      (find_one_by_deal_id st.coll (transform_deal_row row now).deal_id).isSome = true) :=
    fun hp => hp.1 hid
  refine ⟨?_, fun hok => dealStep_insert hno hok, fun hok => dealStep_caught hno hok⟩
  cases hok : insertOk (transform_deal_row row now) st.coll with
  | true => rw [dealStep_insert hno hok]
  | false => rw [dealStep_caught hno hok]

/-- C10 witness: an empty-identifier row stepped against a collection that
already holds an empty-identifier document is still not skipped. -/
theorem c10_witness :
    (dealStep (fun _ _ => true) epoch
      ⟨[transform_deal_row blankDealRow epoch], 3, 4, 0⟩ blankDealRow).skipped = 4 :=
  (c10_empty_id_bypasses_check (fun _ _ => true) epoch
    ⟨[transform_deal_row blankDealRow epoch], 3, 4, 0⟩ blankDealRow rfl).1

end CsvImport

